import Mathlib

/-
Shallow embedding of the auction bidding/closing engine of the jokbo-trade
repository (src/services/auctionService.js and the relevant handlers in
src/routes/auctionRoutes.js), together with theorems settling the frozen
claims about it.

Modelling conventions:
- JS `Date` instants are epoch milliseconds, modelled as `Int`
  (`d1 < d2` on Dates compares the underlying millisecond values).
- Stored numeric fields (prices, ids) are integers in every reachable state
  and are modelled as `Int`.  Raw caller-supplied numbers that the code
  normalizes with `Number(...)` and guards with
  `Number.isFinite(x) && Number.isInteger(x)` are modelled as `ℚ`:
  every representable `ℚ` is finite, and `Number.isInteger` is `q.den = 1`
  (`NaN`/`Infinity` inputs fail the very same guard and are subsumed).
- JS `null` is `Option.none`; truthiness of a nullable number
  (`if (auction.winnerId)`) is `some v` with `v ≠ 0`.
- `await` on a fallible store call is modelled by passing the call's
  success as an explicit boolean and surfacing the rejection as an error.
-/

namespace JokboTrade

/-- Auction status enum of the Mongoose schema (`status`, default OPEN). -/
inductive Status where
  | OPEN
  | CLOSED
deriving DecidableEq

/-- One embedded bid subdocument (`bidSchema` in src/models/mongo/Auction.js). -/
structure Bid where
  bidderId : Int
  bidderNickname : String
  amount : Int
  createdAt : Int
deriving DecidableEq

/-- The auction document (`auctionSchema` in src/models/mongo/Auction.js),
restricted to the fields the bidding engine reads or writes. -/
structure Auction where
  title : String
  description : String
  sellerId : Int
  sellerNickname : String
  startPrice : Int
  currentPrice : Int
  endTime : Int
  filePath : String
  fileOriginalName : String
  bids : List Bid
  status : Status
  winnerId : Option Int
  winnerNickname : Option String
  winningBidAmount : Option Int
  closedAt : Option Int
deriving DecidableEq

/-- JavaScript truthiness of a nullable numeric field: `null` and `0` are falsy,
every other number is truthy. -/
def jsTruthyNum : Option Int → Bool
  | none => false
  | some v => decide (v ≠ 0)

/-- The guard `Number.isFinite(q) && Number.isInteger(q)` applied to a raw
input modelled as a rational: integrality is `q.den = 1` (non-finite inputs
are not representable and fail the same guard). -/
def jsIsIntegral (q : ℚ) : Bool := decide (q.den = 1)

/-- The body of the `reduce` inside `determineWinner`: the accumulator is
replaced only when the next bid has a strictly greater amount, so the earliest
bid attaining the maximum survives. -/
def highestBidStep (max : Option Bid) (bid : Bid) : Option Bid :=
  match max with
  | none => some bid
  | some m => if bid.amount > m.amount then some bid else some m

/-- `auction.bids.reduce(..., null)` from `determineWinner`. -/
def highestBid (bids : List Bid) : Option Bid :=
  bids.foldl highestBidStep none

/-- `determineWinner(auction)` from src/services/auctionService.js:
empty `bids` clears the winner fields, otherwise they are populated from the
bid selected by the strict-greater reduce. -/
def determineWinner (a : Auction) : Auction :=
  if a.bids.isEmpty then
    { a with winnerId := none, winnerNickname := none, winningBidAmount := none }
  else
    match highestBid a.bids with
    | none =>
        { a with winnerId := none, winnerNickname := none, winningBidAmount := none }
    | some hb =>
        { a with winnerId := some hb.bidderId,
                 winnerNickname := some hb.bidderNickname,
                 winningBidAmount := some hb.amount }

/-- The early-return condition of `finalizeAuction`:
`auction.status === 'CLOSED' && (auction.winnerId || !auction.bids.length)`. -/
def finalizeIsNoop (a : Auction) : Bool :=
  decide (a.status = Status.CLOSED) && (jsTruthyNum a.winnerId || a.bids.isEmpty)

/-- Result of `finalizeAuction`: the (possibly updated) document plus whether
`auction.save()` and `broadcastBidUpdate(auction)` were executed. -/
structure FinalizeResult where
  auction : Auction
  saved : Bool
  broadcast : Bool
deriving DecidableEq

/-- `finalizeAuction(auction)` from src/services/auctionService.js.
`now` is the instant `new Date()` yields inside the call. -/
def finalizeAuction (a : Auction) (now : Int) : FinalizeResult :=
  if finalizeIsNoop a then
    ⟨a, false, false⟩
  else
    let a1 := determineWinner a
    let a2 := { a1 with
                status := Status.CLOSED,
                closedAt := match a1.closedAt with
                  | none => some now
                  | some t => some t }
    ⟨a2, true, true⟩

/-- Failure modes of `createAuction` (the two thrown validation errors). -/
inductive CreateError where
  | invalidStartPrice
  | invalidSeller
deriving DecidableEq

/-- `createAuction(...)` from src/services/auctionService.js, up to the saved
document (the save and broadcast happen exactly on the `ok` outcome). -/
def createAuction (title description : String) (startPrice : ℚ) (endTime : Int)
    (sellerId : ℚ) (sellerNickname : String) (filePath fileOriginalName : String) :
    Except CreateError Auction :=
  if jsIsIntegral startPrice = false ∨ startPrice < 100 ∨ startPrice.num % 100 ≠ 0 then
    Except.error CreateError.invalidStartPrice
  else if jsIsIntegral sellerId = false then
    Except.error CreateError.invalidSeller
  else
    Except.ok
      { title := title
        description := description
        sellerId := sellerId.num
        sellerNickname := sellerNickname
        startPrice := startPrice.num
        currentPrice := startPrice.num
        endTime := endTime
        filePath := filePath
        fileOriginalName := fileOriginalName
        bids := []
        status := Status.OPEN
        winnerId := none
        winnerNickname := none
        winningBidAmount := none
        closedAt := none }

/-- The distinct thrown failures of `placeBid`, in source order.
`ledgerFailure` is the rejection of the awaited `recordBidLog` insert
(src/models/bidLogModel.js), which `placeBid` does not catch. -/
inductive BidError where
  | notFound
  | alreadyClosed
  | invalidBidder
  | selfBid
  | auctionEnded
  | invalidAmount
  | bidTooLow
  | notMultipleOf100
  | ledgerFailure
deriving DecidableEq

deriving instance DecidableEq for Except

/-- Observable outcome of one `placeBid` call: the returned/thrown result,
the auction state written to the store during the call (if any), how many
`broadcastBidUpdate` calls ran, and whether the Bid Ledger insert was
attempted. -/
structure PlaceBidResult where
  result : Except BidError Auction
  persisted : Option Auction
  broadcastCount : Nat
  ledgerWriteAttempted : Bool
deriving DecidableEq

/-- `const oneMinute = 60 * 1000`. -/
def oneMinute : Int := 60 * 1000

/-- Body of `placeBid` once `Auction.findById` produced a document.
`now` is the instant `new Date()` yields inside the call; `ledgerOk` tells
whether the awaited `recordBidLog` insert succeeds.  The
`Number.isFinite(currentPrice)` guard of the source always passes here
because the stored `currentPrice` is modelled as an integer. -/
def placeBidOnAuction (auction : Auction) (bidderId : ℚ) (bidderNickname : String)
    (amount : ℚ) (now : Int) (ledgerOk : Bool) : PlaceBidResult :=
  if auction.status = Status.CLOSED then
    ⟨Except.error BidError.alreadyClosed, none, 0, false⟩
  else if jsIsIntegral bidderId = false then
    ⟨Except.error BidError.invalidBidder, none, 0, false⟩
  else
    let normalizedBidderId := bidderId.num
    if auction.sellerId = normalizedBidderId then
      ⟨Except.error BidError.selfBid, none, 0, false⟩
    else if auction.endTime < now then
      let fin := finalizeAuction auction now
      ⟨Except.error BidError.auctionEnded, some fin.auction, fin.broadcast.toNat, false⟩
    else if jsIsIntegral amount = false then
      ⟨Except.error BidError.invalidAmount, none, 0, false⟩
    else
      let normalizedAmount := amount.num
      let minimumIncrement := auction.currentPrice + 100
      if normalizedAmount < minimumIncrement then
        ⟨Except.error BidError.bidTooLow, none, 0, false⟩
      else if normalizedAmount % 100 ≠ 0 then
        ⟨Except.error BidError.notMultipleOf100, none, 0, false⟩
      else
        let updated :=
          { auction with
            currentPrice := normalizedAmount,
            bids := auction.bids ++
              [⟨normalizedBidderId, bidderNickname, normalizedAmount, now⟩],
            endTime :=
              if auction.endTime - now ≤ oneMinute then auction.endTime + oneMinute
              else auction.endTime }
        if ledgerOk then
          ⟨Except.ok updated, some updated, 1, true⟩
        else
          ⟨Except.error BidError.ledgerFailure, some updated, 0, true⟩

/-- `placeBid({auctionId, bidderId, bidderNickname, amount})` from
src/services/auctionService.js; `aopt` is the `Auction.findById` result. -/
def placeBid (aopt : Option Auction) (bidderId : ℚ) (bidderNickname : String)
    (amount : ℚ) (now : Int) (ledgerOk : Bool) : PlaceBidResult :=
  match aopt with
  | none => ⟨Except.error BidError.notFound, none, 0, false⟩
  | some auction => placeBidOnAuction auction bidderId bidderNickname amount now ledgerOk

/-- The Mongo selection `{ endTime: { $lt: now }, status: 'OPEN' }` of
`closeExpiredAuctions`. -/
def expiredQuery (a : Auction) (now : Int) : Bool :=
  decide (a.endTime < now) && decide (a.status = Status.OPEN)

/-- The Mongo selection
`{ status: 'CLOSED', winnerId: null, 'bids.0': { $exists: true } }` of
`closeExpiredAuctions` (`winnerId: null` matches exactly the null value). -/
def closedWithoutWinnerQuery (a : Auction) : Bool :=
  decide (a.status = Status.CLOSED) && decide (a.winnerId = none) && !a.bids.isEmpty

/-- Effect of one `closeExpiredAuctions()` sweep on a single stored auction:
finalized exactly when one of the two selections matches it. -/
def sweepOne (a : Auction) (now : Int) : Auction :=
  if expiredQuery a now || closedWithoutWinnerQuery a then
    (finalizeAuction a now).auction
  else a

/-- `closeExpiredAuctions()` over the whole store. -/
def closeExpiredAuctions (db : List Auction) (now : Int) : List Auction :=
  db.map (fun a => sweepOne a now)

/-- Outcome of the GET /auctions/:id/download handler
(src/routes/auctionRoutes.js) for an authenticated requester. -/
inductive DownloadDecision where
  | notFound
  | refusedNotParticipant
  | refusedNotClosed
  | fileSent (filePath fileOriginalName : String)
deriving DecidableEq

/-- GET /auctions/:id/download handler body after the sweeper ran: the
`String(...)` comparisons of integer ids coincide with integer equality. -/
def downloadHandler (aopt : Option Auction) (requesterId : Int) : DownloadDecision :=
  match aopt with
  | none => DownloadDecision.notFound
  | some auction =>
    let isSeller := decide (auction.sellerId = requesterId)
    let hasBid := auction.bids.any (fun b => decide (b.bidderId = requesterId))
    if !isSeller && !hasBid then
      DownloadDecision.refusedNotParticipant
    else if !(decide (auction.status = Status.CLOSED)) then
      DownloadDecision.refusedNotClosed
    else
      DownloadDecision.fileSent auction.filePath auction.fileOriginalName

/-- Outcome of the POST /auctions/:id/rate handler
(src/routes/auctionRoutes.js) after the express-validator score check. -/
inductive RateDecision where
  | notFound
  | selfRate
  | reputationRecorded
deriving DecidableEq

/-- POST /auctions/:id/rate handler body: only a missing auction or
self-rating is rejected before `recordReputation` runs. -/
def rateHandler (aopt : Option Auction) (requesterId : Int) : RateDecision :=
  match aopt with
  | none => RateDecision.notFound
  | some auction =>
    if auction.sellerId = requesterId then RateDecision.selfRate
    else RateDecision.reputationRecorded

/-- The `canRate` flag computed by the GET /auctions/:id detail handler:
`auction.status === 'CLOSED' && hasBid && !isSeller`. -/
def canRate (a : Auction) (currentUserId : Int) : Bool :=
  decide (a.status = Status.CLOSED)
    && a.bids.any (fun b => decide (b.bidderId = currentUserId))
    && !(decide (a.sellerId = currentUserId))

/-- One request of a bid sequence: the caller-supplied fields plus the
instant the call lands. -/
structure BidReq where
  bidderId : ℚ
  bidderNickname : String
  amount : ℚ
  now : Int

/-- Runs a sequence of `placeBid` calls against the evolving stored document,
defined exactly when every call is accepted (ledger writes succeeding). -/
def applyBids : Auction → List BidReq → Option Auction
  | a, [] => some a
  | a, r :: rs =>
    ((placeBid (some a) r.bidderId r.bidderNickname r.amount r.now true).result.toOption).bind
      (fun c => applyBids c rs)

/-- A concrete OPEN auction used to instantiate the theorems: seller 1,
start and current price 1000, deadline at instant 30000, no bids yet. -/
def baseAuction : Auction :=
  { title := ""
    description := ""
    sellerId := 1
    sellerNickname := ""
    startPrice := 1000
    currentPrice := 1000
    endTime := 30000
    filePath := ""
    fileOriginalName := ""
    bids := []
    status := Status.OPEN
    winnerId := none
    winnerNickname := none
    winningBidAmount := none
    closedAt := none }

/-- The document `placeBid` persists for a bid of 1100 by bidder 2 landing on
`baseAuction` at instant 0 (inside the one-minute window, so the stored
deadline moves from 30000 to 90000). -/
def updatedBase1100 : Auction :=
  { baseAuction with
    currentPrice := 1100
    bids := [⟨2, "", 1100, 0⟩]
    endTime := 90000 }

/-- A concrete expired OPEN auction (deadline at instant 100): seller 1,
prices 1000, no bids. -/
def expiredAuction : Auction := { baseAuction with endTime := 100 }

/-- A concrete CLOSED auction with a resolved winner: bidder 2 won at 1100. -/
def closedAuction : Auction :=
  { baseAuction with
    status := Status.CLOSED
    currentPrice := 1100
    bids := [⟨2, "", 1100, 10⟩]
    winnerId := some 2
    winnerNickname := some ""
    winningBidAmount := some 1100
    closedAt := some 40000 }

/-- A concrete OPEN auction carrying two bids (1100 by bidder 2, then 1200 by
bidder 3) that has passed its deadline and awaits finalization. -/
def biddenAuction : Auction :=
  { baseAuction with
    currentPrice := 1200
    bids := [⟨2, "", 1100, 1⟩, ⟨3, "", 1200, 2⟩] }

/-- The endTime of the auction a `placeBid` call returns, `none` on a thrown
error. -/
def okEndTime : Except BidError Auction → Option Int
  | Except.ok c => some c.endTime
  | Except.error _ => none

/-- The updated document built inside the success path of `placeBid` for an
auction `a`, bidder `b`, nickname `n`, amount `amt` and bid instant `now`. -/
def bidUpdated (a : Auction) (b : ℚ) (n : String) (amt : ℚ) (now : Int) : Auction :=
  { a with
    currentPrice := amt.num
    bids := a.bids ++ [⟨b.num, n, amt.num, now⟩]
    endTime :=
      if a.endTime - now ≤ oneMinute then a.endTime + oneMinute else a.endTime }

lemma finalizeIsNoop_false_of_not_closed {a : Auction} (h : a.status ≠ Status.CLOSED) :
    finalizeIsNoop a = false := by
  simp [finalizeIsNoop, h]

lemma finalizeAuction_acts {a : Auction} (now : Int) (h : finalizeIsNoop a = false) :
    (finalizeAuction a now).auction.status = Status.CLOSED ∧
    (finalizeAuction a now).saved = true ∧ (finalizeAuction a now).broadcast = true := by
  simp [finalizeAuction, h]

lemma placeBidOnAuction_accepts (a : Auction) (b : ℚ) (n : String) (amt : ℚ) (now : Int)
    (lok : Bool)
    (h1 : a.status ≠ Status.CLOSED) (h2 : jsIsIntegral b = true) (h3 : a.sellerId ≠ b.num)
    (h4 : ¬ a.endTime < now) (h5 : jsIsIntegral amt = true)
    (h6 : a.currentPrice + 100 ≤ amt.num) (h7 : amt.num % 100 = 0) :
    placeBidOnAuction a b n amt now lok =
      if lok then
        ⟨Except.ok (bidUpdated a b n amt now), some (bidUpdated a b n amt now), 1, true⟩
      else
        ⟨Except.error BidError.ledgerFailure, some (bidUpdated a b n amt now), 0, true⟩ := by
  have h6' : ¬ (amt.num < a.currentPrice + 100) := not_lt.mpr h6
  have h7' : ¬ (amt.num % 100 ≠ 0) := fun hh => hh h7
  cases lok <;>
    simp [placeBidOnAuction, bidUpdated, h1, h2, h3, h4, h5, h6', h7']

lemma placeBidOnAuction_ok_inv {a : Auction} {b : ℚ} {n : String} {amt : ℚ} {now : Int}
    {lok : Bool} {c : Auction}
    (h : (placeBidOnAuction a b n amt now lok).result = Except.ok c) :
    a.status ≠ Status.CLOSED ∧ jsIsIntegral b = true ∧ a.sellerId ≠ b.num ∧
    ¬ a.endTime < now ∧ jsIsIntegral amt = true ∧ a.currentPrice + 100 ≤ amt.num ∧
    amt.num % 100 = 0 ∧ lok = true ∧ c = bidUpdated a b n amt now := by
  simp only [placeBidOnAuction] at h
  split_ifs at h with h1 h2 h3 h4 h5 h6 h7 h8 <;> simp_all
  all_goals rw [← h]; simp only [bidUpdated]
  · rw [if_pos (by omega)]
  · rw [if_neg (by omega)]

lemma placeBidOnAuction_ended_imp {a : Auction} {b : ℚ} {n : String} {amt : ℚ}
    {now : Int} {lok : Bool}
    (h : (placeBidOnAuction a b n amt now lok).result = Except.error BidError.auctionEnded) :
    a.endTime < now := by
  simp only [placeBidOnAuction] at h
  split_ifs at h with h1 h2 h3 h4 h5 h6 h7 h8 <;> simp_all

/-- C1 counterexample: on `baseAuction` (stored `endTime = 30000`) a valid bid
landing at instant `now = 0` — so `endTime - now = 30s ≤ 60s` — yields a new
`endTime` of `90000 = old endTime + 60s`, not `now + 60s = 60000`. -/
theorem placeBid_antisnipe_c1_counterexample :
    baseAuction.endTime = 0 + 30000 ∧
    okEndTime (placeBid (some baseAuction) 2 "" 1100 0 true).result = some 90000 ∧
    (90000 : Int) ≠ 0 + oneMinute := by decide

/-- C1 (amended): for every `placeBid` accepted at instant `now` on an auction
whose stored `endTime` satisfies `endTime - now ≤ 60s`, the new `endTime`
equals the old `endTime + 60s` — the extension is relative to the old
deadline, not to the bid instant. -/
theorem placeBid_antisnipe_extends_old_deadline_c1 (a : Auction) (b : ℚ) (n : String)
    (amt : ℚ) (now : Int) (lok : Bool) (c : Auction)
    (hok : (placeBid (some a) b n amt now lok).result = Except.ok c)
    (hwin : a.endTime - now ≤ oneMinute) :
    c.endTime = a.endTime + oneMinute := by
  simp only [placeBid] at hok
  obtain ⟨-, -, -, -, -, -, -, -, hc⟩ := placeBidOnAuction_ok_inv hok
  subst hc
  simp [bidUpdated, hwin]

/-- Witness for the amended C1 theorem at `baseAuction`. -/
theorem placeBid_antisnipe_extends_old_deadline_c1_witness :
    ((placeBid (some baseAuction) 2 "" 1100 0 true).result = Except.ok updatedBase1100 ∧
      baseAuction.endTime - 0 ≤ oneMinute) ∧
    updatedBase1100.endTime = baseAuction.endTime + oneMinute :=
  ⟨⟨by decide, by decide⟩,
    placeBid_antisnipe_extends_old_deadline_c1 baseAuction 2 "" 1100 0 true updatedBase1100
      (by decide) (by decide)⟩

/-- C4 counterexample: a seller self-bidding on their own expired OPEN auction
gets the self-bid error and nothing is finalized or persisted, although a
finalize would have saved — the lazy close does not run before the self-bid
check. -/
theorem placeBid_lazy_close_c4_counterexample :
    expiredAuction.endTime < 200 ∧ expiredAuction.status = Status.OPEN ∧
    placeBid (some expiredAuction) 1 "" 1100 200 true =
      ⟨Except.error BidError.selfBid, none, 0, false⟩ ∧
    (finalizeAuction expiredAuction 200).saved = true := by decide

/-- C4 (amended): on a non-CLOSED auction whose `endTime` has passed, the lazy
close (finalize + persist) happens and the ended error is reported, but only
after the bidder-identity and self-bid checks: a self-bid on the same expired
auction fails with the self-bid error and persists nothing. -/
theorem placeBid_lazy_close_order_c4 (a : Auction) (b : ℚ) (n : String) (amt : ℚ)
    (now : Int) (lok : Bool)
    (h1 : a.status ≠ Status.CLOSED) (h2 : jsIsIntegral b = true) (hexp : a.endTime < now) :
    (a.sellerId ≠ b.num →
      placeBid (some a) b n amt now lok =
        ⟨Except.error BidError.auctionEnded, some (finalizeAuction a now).auction,
          (finalizeAuction a now).broadcast.toNat, false⟩ ∧
      (finalizeAuction a now).auction.status = Status.CLOSED ∧
      (finalizeAuction a now).saved = true) ∧
    (a.sellerId = b.num →
      placeBid (some a) b n amt now lok = ⟨Except.error BidError.selfBid, none, 0, false⟩) := by
  constructor
  · intro hself
    refine ⟨?_, ?_, ?_⟩
    · simp [placeBid, placeBidOnAuction, h1, h2, hself, hexp]
    · exact (finalizeAuction_acts now (finalizeIsNoop_false_of_not_closed h1)).1
    · exact (finalizeAuction_acts now (finalizeIsNoop_false_of_not_closed h1)).2.1
  · intro hself
    simp [placeBid, placeBidOnAuction, h1, h2, hself]

/-- Witness for the amended C4 theorem at `expiredAuction` with bidder 2. -/
theorem placeBid_lazy_close_order_c4_witness :
    (expiredAuction.status ≠ Status.CLOSED ∧ jsIsIntegral 2 = true ∧
      expiredAuction.endTime < 200) ∧
    ((expiredAuction.sellerId ≠ (2 : ℚ).num →
      placeBid (some expiredAuction) 2 "" 1100 200 true =
        ⟨Except.error BidError.auctionEnded,
          some (finalizeAuction expiredAuction 200).auction,
          (finalizeAuction expiredAuction 200).broadcast.toNat, false⟩ ∧
      (finalizeAuction expiredAuction 200).auction.status = Status.CLOSED ∧
      (finalizeAuction expiredAuction 200).saved = true) ∧
    (expiredAuction.sellerId = (2 : ℚ).num →
      placeBid (some expiredAuction) 2 "" 1100 200 true =
        ⟨Except.error BidError.selfBid, none, 0, false⟩)) :=
  ⟨⟨by decide, by decide, by decide⟩,
    placeBid_lazy_close_order_c4 expiredAuction 2 "" 1100 200 true
      (by decide) (by decide) (by decide)⟩

/-- C5: `finalizeAuction` on an already CLOSED auction whose `winnerId` is
resolved (truthy) or whose `bids` are empty returns the document unchanged,
performs no save and emits no broadcast; calling it twice is equally a no-op. -/
theorem finalize_idempotent_noop_c5 (a : Auction) (now now2 : Int)
    (hclosed : a.status = Status.CLOSED)
    (hres : jsTruthyNum a.winnerId = true ∨ a.bids.isEmpty = true) :
    finalizeAuction a now = ⟨a, false, false⟩ ∧
    finalizeAuction (finalizeAuction a now).auction now2 = ⟨a, false, false⟩ := by
  have hno : finalizeIsNoop a = true := by
    rcases hres with h | h <;> simp [finalizeIsNoop, hclosed, h]
  have h1 : finalizeAuction a now = ⟨a, false, false⟩ := by
    simp [finalizeAuction, hno]
  refine ⟨h1, ?_⟩
  rw [h1]
  simp [finalizeAuction, hno]

/-- Witness for the C5 theorem at `closedAuction`. -/
theorem finalize_idempotent_noop_c5_witness :
    (closedAuction.status = Status.CLOSED ∧
      (jsTruthyNum closedAuction.winnerId = true ∨ closedAuction.bids.isEmpty = true)) ∧
    (finalizeAuction closedAuction 50000 = ⟨closedAuction, false, false⟩ ∧
      finalizeAuction (finalizeAuction closedAuction 50000).auction 60000 =
        ⟨closedAuction, false, false⟩) :=
  ⟨⟨by decide, Or.inl (by decide)⟩,
    finalize_idempotent_noop_c5 closedAuction 50000 60000 (by decide) (Or.inl (by decide))⟩

/-- C6 counterexample: against `currentPrice = 1000`, the integer amount 1050
is both below the minimum increment and not a multiple of 100, and the call
fails with the too-low error, not with a validation error. -/
theorem placeBid_check_order_c6_counterexample :
    (1050 : ℚ).num % 100 ≠ 0 ∧ (1050 : ℚ).num < baseAuction.currentPrice + 100 ∧
    (placeBid (some baseAuction) 2 "" 1050 0 true).result = Except.error BidError.bidTooLow ∧
    BidError.bidTooLow ≠ BidError.invalidAmount ∧
    BidError.bidTooLow ≠ BidError.notMultipleOf100 := by decide

/-- C6 (amended): integrality of the amount is checked before the increment
rule, but the multiple-of-100 check runs after it: an integer amount below
`currentPrice + 100` fails with the too-low error even when it is not a
multiple of 100, and the multiple-of-100 error only arises for amounts
meeting the increment. -/
theorem placeBid_increment_before_multiple_c6 (a : Auction) (b : ℚ) (n : String)
    (amt : ℚ) (now : Int) (lok : Bool)
    (h1 : a.status ≠ Status.CLOSED) (h2 : jsIsIntegral b = true) (h3 : a.sellerId ≠ b.num)
    (h4 : ¬ a.endTime < now) (h5 : jsIsIntegral amt = true) :
    (amt.num < a.currentPrice + 100 →
      (placeBid (some a) b n amt now lok).result = Except.error BidError.bidTooLow) ∧
    (a.currentPrice + 100 ≤ amt.num → amt.num % 100 ≠ 0 →
      (placeBid (some a) b n amt now lok).result = Except.error BidError.notMultipleOf100) := by
  constructor
  · intro hlow
    simp [placeBid, placeBidOnAuction, h1, h2, h3, h4, h5, hlow]
  · intro hge hmul
    have hge' : ¬ (amt.num < a.currentPrice + 100) := not_lt.mpr hge
    simp [placeBid, placeBidOnAuction, h1, h2, h3, h4, h5, hge', hmul]

/-- Witness for the amended C6 theorem at `baseAuction` and amount 1050. -/
theorem placeBid_increment_before_multiple_c6_witness :
    (baseAuction.status ≠ Status.CLOSED ∧ jsIsIntegral 2 = true ∧
      baseAuction.sellerId ≠ (2 : ℚ).num ∧ ¬ baseAuction.endTime < 0 ∧
      jsIsIntegral 1050 = true) ∧
    (((1050 : ℚ).num < baseAuction.currentPrice + 100 →
      (placeBid (some baseAuction) 2 "" 1050 0 true).result =
        Except.error BidError.bidTooLow) ∧
    (baseAuction.currentPrice + 100 ≤ (1050 : ℚ).num → (1050 : ℚ).num % 100 ≠ 0 →
      (placeBid (some baseAuction) 2 "" 1050 0 true).result =
        Except.error BidError.notMultipleOf100)) :=
  ⟨⟨by decide, by decide, by decide, by decide, by decide⟩,
    placeBid_increment_before_multiple_c6 baseAuction 2 "" 1050 0 true
      (by decide) (by decide) (by decide) (by decide) (by decide)⟩

/-- C7 counterexample: the very bid that is accepted when the ledger insert
succeeds makes `placeBid` throw the ledger error when the insert fails — the
failure is propagated, not swallowed — although the updated auction was
already persisted. -/
theorem placeBid_ledger_swallow_c7_counterexample :
    (placeBid (some baseAuction) 2 "" 1100 0 true).result = Except.ok updatedBase1100 ∧
    placeBid (some baseAuction) 2 "" 1100 0 false =
      ⟨Except.error BidError.ledgerFailure, some updatedBase1100, 0, true⟩ := by decide

/-- C7 (amended): when a bid would be accepted, a failure of the awaited
`recordBidLog` insert propagates out of `placeBid` (no updated auction is
returned and no broadcast runs), while the already-persisted
`currentPrice`/`bids` update is not rolled back. -/
theorem placeBid_ledger_failure_propagates_c7 (aopt : Option Auction) (b : ℚ) (n : String)
    (amt : ℚ) (now : Int) (c : Auction)
    (hok : (placeBid aopt b n amt now true).result = Except.ok c) :
    placeBid aopt b n amt now false =
      ⟨Except.error BidError.ledgerFailure, some c, 0, true⟩ := by
  match aopt with
  | none => simp [placeBid] at hok
  | some a =>
    simp only [placeBid] at hok ⊢
    obtain ⟨h1, h2, h3, h4, h5, h6, h7, -, hc⟩ := placeBidOnAuction_ok_inv hok
    subst hc
    simpa using placeBidOnAuction_accepts a b n amt now false h1 h2 h3 h4 h5 h6 h7

/-- Witness for the amended C7 theorem at `baseAuction`. -/
theorem placeBid_ledger_failure_propagates_c7_witness :
    ((placeBid (some baseAuction) 2 "" 1100 0 true).result = Except.ok updatedBase1100) ∧
    placeBid (some baseAuction) 2 "" 1100 0 false =
      ⟨Except.error BidError.ledgerFailure, some updatedBase1100, 0, true⟩ :=
  ⟨by decide,
    placeBid_ledger_failure_propagates_c7 (some baseAuction) 2 "" 1100 0 updatedBase1100
      (by decide)⟩

/-- C8: the download handler sends the file exactly when the auction is CLOSED
and the requester is the seller or appears among the bidders; every other
requester is refused. -/
theorem download_gate_c8 (a : Auction) (rid : Int) :
    (∃ fp fn, downloadHandler (some a) rid = DownloadDecision.fileSent fp fn) ↔
      (a.status = Status.CLOSED ∧
        (a.sellerId = rid ∨ ∃ bid ∈ a.bids, bid.bidderId = rid)) := by
  by_cases hs : a.sellerId = rid <;>
    by_cases hb : ∃ bid ∈ a.bids, bid.bidderId = rid <;>
      by_cases hc : a.status = Status.CLOSED <;>
        simp [downloadHandler, List.any_eq_true, hs, hb, hc]
  · have hb' : ¬ (∀ x ∈ a.bids, ¬ x.bidderId = rid) := by push_neg; exact hb
    rw [if_neg hb']
    exact ⟨a.filePath, a.fileOriginalName, rfl⟩
  · have hb' : ¬ (∀ x ∈ a.bids, ¬ x.bidderId = rid) := by push_neg; exact hb
    rw [if_neg hb']
    intro x y
    simp
  · have hb' : ∀ x ∈ a.bids, ¬ x.bidderId = rid := by push_neg at hb; exact hb
    rw [if_pos hb']
    intro x y
    simp
  · have hb' : ∀ x ∈ a.bids, ¬ x.bidderId = rid := by push_neg at hb; exact hb
    rw [if_pos hb']
    intro x y
    simp

/-- C9 (code bug witness): on a CLOSED auction, requester 3 is neither the
seller nor a bidder — the detail page's own `canRate` gate is false — yet the
rate endpoint records the reputation review instead of rejecting. -/
theorem rate_endpoint_missing_gate_c9 :
    closedAuction.status = Status.CLOSED ∧
    (∀ b ∈ closedAuction.bids, b.bidderId ≠ 3) ∧
    closedAuction.sellerId ≠ 3 ∧
    canRate closedAuction 3 = false ∧
    rateHandler (some closedAuction) 3 = RateDecision.reputationRecorded := by decide

/-- C10: at the exact boundary instant `now = endTime`, an OPEN auction is
untouched by the sweeper, a `placeBid` call never takes the expired branch,
and an otherwise-valid bid is accepted as a live bid (landing in the one-
minute window, so the deadline extends). -/
theorem expiry_boundary_strict_c10 (a : Auction) (b : ℚ) (n : String) (amt : ℚ) (lok : Bool)
    (hopen : a.status = Status.OPEN) :
    sweepOne a a.endTime = a ∧
    (placeBid (some a) b n amt a.endTime lok).result ≠ Except.error BidError.auctionEnded ∧
    (jsIsIntegral b = true → a.sellerId ≠ b.num → jsIsIntegral amt = true →
      a.currentPrice + 100 ≤ amt.num → amt.num % 100 = 0 → lok = true →
      (placeBid (some a) b n amt a.endTime lok).result =
        Except.ok (bidUpdated a b n amt a.endTime) ∧
      (bidUpdated a b n amt a.endTime).endTime = a.endTime + oneMinute) := by
  have hcl : a.status ≠ Status.CLOSED := by simp [hopen]
  refine ⟨?_, ?_, ?_⟩
  · simp [sweepOne, expiredQuery, closedWithoutWinnerQuery, hopen]
  · intro hcontra
    simp only [placeBid] at hcontra
    exact absurd (placeBidOnAuction_ended_imp hcontra) (lt_irrefl _)
  · intro hb hself hamt hmin hmul hlok
    subst hlok
    have hnl : ¬ a.endTime < a.endTime := lt_irrefl _
    constructor
    · simp only [placeBid]
      rw [placeBidOnAuction_accepts a b n amt a.endTime true hcl hb hself hnl hamt hmin hmul]
      simp
    · simp [bidUpdated, oneMinute]

/-- Witness for the C10 theorem at `baseAuction` with a boundary bid of 1100. -/
theorem expiry_boundary_strict_c10_witness :
    baseAuction.status = Status.OPEN ∧
    (sweepOne baseAuction baseAuction.endTime = baseAuction ∧
      (placeBid (some baseAuction) 2 "" 1100 baseAuction.endTime true).result ≠
        Except.error BidError.auctionEnded ∧
      (jsIsIntegral 2 = true → baseAuction.sellerId ≠ (2 : ℚ).num →
        jsIsIntegral 1100 = true → baseAuction.currentPrice + 100 ≤ (1100 : ℚ).num →
        (1100 : ℚ).num % 100 = 0 → true = true →
        (placeBid (some baseAuction) 2 "" 1100 baseAuction.endTime true).result =
          Except.ok (bidUpdated baseAuction 2 "" 1100 baseAuction.endTime) ∧
        (bidUpdated baseAuction 2 "" 1100 baseAuction.endTime).endTime =
          baseAuction.endTime + oneMinute)) :=
  ⟨by decide, expiry_boundary_strict_c10 baseAuction 2 "" 1100 true (by decide)⟩

lemma highestBid_foldl_spec (l : List Bid) (m : Bid) :
    ∃ b, List.foldl highestBidStep (some m) l = some b ∧
      (∀ x ∈ l, x.amount ≤ b.amount) ∧ m.amount ≤ b.amount ∧
      (b = m ∨ ∃ l₁ l₂, l = l₁ ++ b :: l₂ ∧ m.amount < b.amount ∧
        ∀ x ∈ l₁, x.amount < b.amount) := by
  induction l generalizing m with
  | nil => exact ⟨m, rfl, by simp, le_refl _, Or.inl rfl⟩
  | cons a l ih =>
    by_cases hgt : a.amount > m.amount
    · have step : List.foldl highestBidStep (some m) (a :: l) =
          List.foldl highestBidStep (some a) l := by
        simp [List.foldl_cons, highestBidStep, hgt]
      obtain ⟨b, hfold, hall, hma, hcase⟩ := ih a
      refine ⟨b, by rw [step]; exact hfold, ?_, le_of_lt (lt_of_lt_of_le hgt hma), ?_⟩
      · intro x hx
        rcases List.mem_cons.mp hx with rfl | hx
        · exact hma
        · exact hall x hx
      · rcases hcase with rfl | ⟨l₁, l₂, hdec, hlt, hpre⟩
        · exact Or.inr ⟨[], l, by simp, hgt, by simp⟩
        · refine Or.inr ⟨a :: l₁, l₂, by rw [hdec]; rfl, lt_trans hgt hlt, ?_⟩
          intro x hx
          rcases List.mem_cons.mp hx with rfl | hx
          · exact hlt
          · exact hpre x hx
    · have hle : a.amount ≤ m.amount := not_lt.mp hgt
      have step : List.foldl highestBidStep (some m) (a :: l) =
          List.foldl highestBidStep (some m) l := by
        simp [List.foldl_cons, highestBidStep, hgt]
      obtain ⟨b, hfold, hall, hma, hcase⟩ := ih m
      refine ⟨b, by rw [step]; exact hfold, ?_, hma, ?_⟩
      · intro x hx
        rcases List.mem_cons.mp hx with rfl | hx
        · exact le_trans hle hma
        · exact hall x hx
      · rcases hcase with rfl | ⟨l₁, l₂, hdec, hlt, hpre⟩
        · exact Or.inl rfl
        · refine Or.inr ⟨a :: l₁, l₂, by rw [hdec]; rfl, hlt, ?_⟩
          intro x hx
          rcases List.mem_cons.mp hx with rfl | hx
          · exact lt_of_le_of_lt hle hlt
          · exact hpre x hx

lemma highestBid_spec {bids : List Bid} (hne : bids ≠ []) :
    ∃ b l₁ l₂, highestBid bids = some b ∧ bids = l₁ ++ b :: l₂ ∧
      (∀ x ∈ bids, x.amount ≤ b.amount) ∧ ∀ x ∈ l₁, x.amount < b.amount := by
  match bids, hne with
  | x :: xs, _ =>
    have hfold : highestBid (x :: xs) = List.foldl highestBidStep (some x) xs := by
      simp [highestBid, List.foldl_cons, highestBidStep]
    obtain ⟨b, hf, hall, hxa, hcase⟩ := highestBid_foldl_spec xs x
    rcases hcase with rfl | ⟨l₁, l₂, hdec, hlt, hpre⟩
    · refine ⟨b, [], xs, by rw [hfold]; exact hf, by simp, ?_, by simp⟩
      intro y hy
      rcases List.mem_cons.mp hy with rfl | hy
      · exact le_refl _
      · exact hall y hy
    · refine ⟨b, x :: l₁, l₂, by rw [hfold]; exact hf, by rw [hdec]; rfl, ?_, ?_⟩
      · intro y hy
        rcases List.mem_cons.mp hy with rfl | hy
        · exact hxa
        · exact hall y hy
      · intro y hy
        rcases List.mem_cons.mp hy with rfl | hy
        · exact hlt
        · exact hpre y hy

/-- C2: whenever `finalizeAuction` actually finalizes (not the CLOSED no-op),
empty `bids` leaves all three winner fields null, and non-empty `bids` set
them from one specific bid that attains the maximum amount and is preceded
only by strictly smaller bids — the earliest maximal bid. -/
theorem finalize_winner_from_max_bid_c2 (a : Auction) (now : Int)
    (hact : finalizeIsNoop a = false) :
    (a.bids = [] →
      (finalizeAuction a now).auction.winnerId = none ∧
      (finalizeAuction a now).auction.winnerNickname = none ∧
      (finalizeAuction a now).auction.winningBidAmount = none) ∧
    (a.bids ≠ [] →
      ∃ b l₁ l₂, a.bids = l₁ ++ b :: l₂ ∧
        (∀ x ∈ a.bids, x.amount ≤ b.amount) ∧
        (∀ x ∈ l₁, x.amount < b.amount) ∧
        (finalizeAuction a now).auction.winnerId = some b.bidderId ∧
        (finalizeAuction a now).auction.winnerNickname = some b.bidderNickname ∧
        (finalizeAuction a now).auction.winningBidAmount = some b.amount) := by
  constructor
  · intro hemp
    simp [finalizeAuction, hact, determineWinner, hemp]
  · intro hne
    have hne' : a.bids.isEmpty = false := by
      simpa [List.isEmpty_iff] using hne
    obtain ⟨b, l₁, l₂, hhb, hdec, hall, hpre⟩ := highestBid_spec hne
    refine ⟨b, l₁, l₂, hdec, hall, hpre, ?_, ?_, ?_⟩ <;>
      simp [finalizeAuction, hact, determineWinner, hne', hhb]

/-- Witness for the C2 theorem at `biddenAuction`: bidder 3's 1200 bid wins. -/
theorem finalize_winner_from_max_bid_c2_witness :
    finalizeIsNoop biddenAuction = false ∧
    ((biddenAuction.bids = [] →
      (finalizeAuction biddenAuction 40000).auction.winnerId = none ∧
      (finalizeAuction biddenAuction 40000).auction.winnerNickname = none ∧
      (finalizeAuction biddenAuction 40000).auction.winningBidAmount = none) ∧
    (biddenAuction.bids ≠ [] →
      ∃ b l₁ l₂, biddenAuction.bids = l₁ ++ b :: l₂ ∧
        (∀ x ∈ biddenAuction.bids, x.amount ≤ b.amount) ∧
        (∀ x ∈ l₁, x.amount < b.amount) ∧
        (finalizeAuction biddenAuction 40000).auction.winnerId = some b.bidderId ∧
        (finalizeAuction biddenAuction 40000).auction.winnerNickname =
          some b.bidderNickname ∧
        (finalizeAuction biddenAuction 40000).auction.winningBidAmount =
          some b.amount)) :=
  ⟨by decide, finalize_winner_from_max_bid_c2 biddenAuction 40000 (by decide)⟩

lemma createAuction_ok_inv {t d sn fp fon : String} {sp : ℚ} {et : Int} {sid : ℚ}
    {a0 : Auction}
    (h : createAuction t d sp et sid sn fp fon = Except.ok a0) :
    a0.currentPrice = a0.startPrice := by
  simp only [createAuction] at h
  split_ifs at h
  simp_all
  rw [← h]

lemma applyBids_spec (rs : List BidReq) : ∀ a c : Auction, applyBids a rs = some c →
    c.startPrice = a.startPrice ∧ a.currentPrice ≤ c.currentPrice := by
  induction rs with
  | nil =>
    intro a c h
    simp only [applyBids, Option.some.injEq] at h
    subst h
    exact ⟨rfl, le_refl _⟩
  | cons r rs ih =>
    intro a c h
    simp only [applyBids] at h
    cases hres : (placeBid (some a) r.bidderId r.bidderNickname r.amount r.now true).result with
    | error e =>
      rw [hres] at h
      simp [Except.toOption] at h
    | ok d =>
      rw [hres] at h
      simp only [Except.toOption, Option.some_bind] at h
      obtain ⟨hsp, hcp⟩ := ih d c h
      simp only [placeBid] at hres
      obtain ⟨-, -, -, -, -, h6, -, -, hd⟩ := placeBidOnAuction_ok_inv hres
      subst hd
      constructor
      · rw [hsp]; simp [bidUpdated]
      · refine le_trans ?_ hcp
        simp only [bidUpdated]
        omega

/-- C3: an auction built by `createAuction` starts with
`currentPrice = startPrice`; each accepted `placeBid` sets `currentPrice` to
the bid's amount, at least 100 above the previous `currentPrice`, and keeps
`startPrice`; hence along any accepted bid sequence `currentPrice` never drops
below `startPrice`. -/
theorem price_monotone_c3 (title description sellerNickname filePath fileOriginalName : String)
    (startPrice : ℚ) (endTime : Int) (sellerId : ℚ) (a0 : Auction)
    (h0 : createAuction title description startPrice endTime sellerId sellerNickname
        filePath fileOriginalName = Except.ok a0) :
    a0.currentPrice = a0.startPrice ∧
    (∀ (a : Auction) (b : ℚ) (n : String) (amt : ℚ) (now : Int) (lok : Bool) (c : Auction),
      (placeBid (some a) b n amt now lok).result = Except.ok c →
      c.currentPrice = amt.num ∧ a.currentPrice + 100 ≤ c.currentPrice ∧
      c.startPrice = a.startPrice) ∧
    (∀ (rs : List BidReq) (c : Auction), applyBids a0 rs = some c →
      c.startPrice = a0.startPrice ∧ a0.startPrice ≤ c.currentPrice) := by
  have hstart : a0.currentPrice = a0.startPrice := createAuction_ok_inv h0
  refine ⟨hstart, ?_, ?_⟩
  · intro a b n amt now lok c hok
    simp only [placeBid] at hok
    obtain ⟨-, -, -, -, -, h6, -, -, hc⟩ := placeBidOnAuction_ok_inv hok
    subst hc
    refine ⟨by simp [bidUpdated], ?_, by simp [bidUpdated]⟩
    simpa [bidUpdated] using h6
  · intro rs c h
    obtain ⟨hsp, hcp⟩ := applyBids_spec rs a0 c h
    exact ⟨hsp, by rw [← hstart]; exact hcp⟩

/-- Witness for the C3 theorem: `createAuction` at start price 1000 yields
`baseAuction`, to which the theorem applies. -/
theorem price_monotone_c3_witness :
    createAuction "" "" 1000 30000 1 "" "" "" = Except.ok baseAuction ∧
    (baseAuction.currentPrice = baseAuction.startPrice ∧
    (∀ (a : Auction) (b : ℚ) (n : String) (amt : ℚ) (now : Int) (lok : Bool) (c : Auction),
      (placeBid (some a) b n amt now lok).result = Except.ok c →
      c.currentPrice = amt.num ∧ a.currentPrice + 100 ≤ c.currentPrice ∧
      c.startPrice = a.startPrice) ∧
    (∀ (rs : List BidReq) (c : Auction), applyBids baseAuction rs = some c →
      c.startPrice = baseAuction.startPrice ∧ baseAuction.startPrice ≤ c.currentPrice)) :=
  ⟨by decide, price_monotone_c3 "" "" "" "" "" 1000 30000 1 baseAuction (by decide)⟩

end JokboTrade
